import Mathlib

/-!
Shallow embedding of the MagicMissile execution-simulation core:
the order lifecycle (src/orders/order.py), the matching engine
(src/orders/order_book.py), the portfolio ledger
(src/portfolio/manager.py), the paper broker (src/broker/paper.py)
and the equity-sampling step of the backtest engine
(src/backtesting/engine.py).

Modelling conventions:
* Python `datetime`/`timedelta` values are modelled as integers (only
  their total order and additive structure are used by the code).
* Python floats are modelled as rationals; the claims under study are
  structural/algebraic, not about rounding.
* Python `int` is modelled as `Int`.
* The per-symbol `defaultdict(list)` of the order book is flattened
  into one insertion-ordered list of orders; `process_bar` filters it
  by symbol, which preserves the per-symbol submission order the
  Python dict stores.
* Mutable objects are modelled by explicit state passing; aliasing of
  `FillEvent` objects (the in-place slippage mutation in
  `PaperBroker.on_price_tick`) is modelled by applying the price
  adjustment at fill-construction time, which is observationally
  equivalent because no code reads the fill's price between its
  construction and the mutation.
-/

namespace MagicMissile

/-- Signal side (src/strategies/signal.py `SignalType`). -/
inductive SignalType where
  | BUY
  | SELL
  | HOLD
deriving DecidableEq, Repr

/-- Supported order execution types (src/orders/types.py `OrderType`). -/
inductive OrderType where
  | MARKET
  | LIMIT
  | STOP
deriving DecidableEq, Repr

/-- Lifecycle states for an order instance (src/orders/types.py `OrderStatus`). -/
inductive OrderStatus where
  | PENDING
  | PARTIALLY_FILLED
  | FILLED
  | CANCELLED
  | EXPIRED
deriving DecidableEq, Repr

/-- Fill event record (src/backtesting/events.py `FillEvent`). -/
structure FillEvent where
  symbol : String
  time : Int
  fill_type : SignalType
  quantity : Int
  price : ℚ
  commission : ℚ
deriving DecidableEq, Repr

/-- Order value (src/orders/order.py `Order`); `id` and `created_at`
are supplied externally (uuid and clock are environment inputs). -/
structure Order where
  symbol : String
  side : SignalType
  order_type : OrderType
  quantity : Int
  limit_price : Option ℚ
  stop_price : Option ℚ
  created_at : Int
  timeout : Option Int
  id : String
  filled_qty : Int
  status : OrderStatus
  fills : List FillEvent
deriving DecidableEq, Repr

/-- Validating constructor (src/orders/order.py `Order.__post_init__`):
checks in source order, then the dataclass defaults for the
internal fields (`filled_qty = 0`, `status = PENDING`, `fills = []`). -/
def mkOrder (symbol : String) (side : SignalType) (order_type : OrderType)
    (quantity : Int) (limit_price stop_price : Option ℚ)
    (created_at : Int) (timeout : Option Int) (id : String) :
    Except String Order :=
  if quantity ≤ 0 then
    Except.error "quantity must be positive"
  else if order_type = OrderType.LIMIT ∧ limit_price = none then
    Except.error "limit_price required for LIMIT orders"
  else if order_type = OrderType.STOP ∧ stop_price = none then
    Except.error "stop_price required for STOP orders"
  else if side = SignalType.HOLD then
    Except.error "Order side cannot be HOLD"
  else
    Except.ok
      { symbol := symbol, side := side, order_type := order_type,
        quantity := quantity, limit_price := limit_price,
        stop_price := stop_price, created_at := created_at,
        timeout := timeout, id := id, filled_qty := 0,
        status := OrderStatus.PENDING, fills := [] }

/-- Quantity yet to be filled (src/orders/order.py `Order.remaining`). -/
def Order.remaining (o : Order) : Int :=
  o.quantity - o.filled_qty

/-- True if the order can still be executed (src/orders/order.py `Order.is_open`). -/
def Order.is_open (o : Order) : Bool :=
  match o.status with
  | OrderStatus.PENDING => true
  | OrderStatus.PARTIALLY_FILLED => true
  | _ => false

/-- Update internal state with a new fill event
(src/orders/order.py `Order._record_fill`). -/
def Order.record_fill (o : Order) (fill : FillEvent) : Order :=
  let filled := o.filled_qty + fill.quantity
  { o with
    fills := o.fills ++ [fill],
    filled_qty := filled,
    status :=
      if o.quantity ≤ filled then OrderStatus.FILLED
      else OrderStatus.PARTIALLY_FILLED }

/-- Expire an order if its timeout has elapsed
(src/orders/order.py `Order.maybe_timeout`). -/
def Order.maybe_timeout (o : Order) (now : Int) : Order :=
  match o.timeout with
  | none => o
  | some t =>
    if o.is_open ∧ t < now - o.created_at then
      { o with status := OrderStatus.EXPIRED }
    else o

/-- Manually cancel the order if it is still open
(src/orders/order.py `Order.cancel`). -/
def Order.cancel (o : Order) : Order :=
  if o.is_open then { o with status := OrderStatus.CANCELLED } else o

/-- The order's limit price, which `__post_init__` guarantees is present
for LIMIT orders (the matching code reads the field directly). -/
def Order.limitP (o : Order) : ℚ :=
  o.limit_price.getD 0

/-- The order's stop price, guaranteed present for STOP orders. -/
def Order.stopP (o : Order) : ℚ :=
  o.stop_price.getD 0

/-- In-memory order book (src/orders/order_book.py `OrderBook`).
`orders` flattens the per-symbol `defaultdict(list)` into one
insertion-ordered list; `history` keeps the audit trail as the ids of
the same order objects (Python stores aliases, and orders are never
removed from the active lists, so ids suffice). -/
structure OrderBook where
  orders : List Order
  history : List String
  max_qty_per_fill : Option Int
deriving DecidableEq, Repr

/-- Fresh order book (src/orders/order_book.py `OrderBook.__init__`). -/
def OrderBook.empty (max_qty_per_fill : Option Int) : OrderBook :=
  { orders := [], history := [], max_qty_per_fill := max_qty_per_fill }

/-- Register a new order with the book
(src/orders/order_book.py `OrderBook.add_order`): append to the
active list and the audit trail, with no validation. -/
def OrderBook.add_order (b : OrderBook) (o : Order) : OrderBook :=
  { b with orders := b.orders ++ [o], history := b.history ++ [o.id] }

/-- Scan for the first open order with the given id and cancel it
(loop body of src/orders/order_book.py `OrderBook.cancel_order`). -/
def cancelList (oid : String) : List Order → List Order × Bool
  | [] => ([], false)
  | o :: rest =>
    if o.id = oid ∧ o.is_open then (o.cancel :: rest, true)
    else
      let r := cancelList oid rest
      (o :: r.1, r.2)

/-- Cancel an order by its id; returns whether a cancellation occurred
(src/orders/order_book.py `OrderBook.cancel_order`). -/
def OrderBook.cancel_order (b : OrderBook) (oid : String) : OrderBook × Bool :=
  let r := cancelList oid b.orders
  ({ b with orders := r.1 }, r.2)

/-- Eligibility and fill price by order type: the per-order branching
of src/orders/order_book.py `OrderBook.process_bar` (`none` means the
Python `continue`, i.e. not eligible this bar). -/
def fillPriceFor (o : Order) (price high low : ℚ) : Option ℚ :=
  match o.order_type with
  | OrderType.MARKET => some price
  | OrderType.LIMIT =>
    if o.side = SignalType.BUY ∧ low ≤ o.limitP then
      some (min o.limitP price)
    else if o.side = SignalType.SELL ∧ o.limitP ≤ high then
      some (max o.limitP price)
    else none
  | OrderType.STOP =>
    if (o.side = SignalType.BUY ∧ o.stopP ≤ high)
        ∨ (o.side = SignalType.SELL ∧ low ≤ o.stopP) then
      some price
    else none

/-- One loop iteration of `OrderBook.process_bar` for a single order,
parameterised by the fill `adjust`ment the caller applies to each new
fill (`id` for the plain book; the paper broker's in-place slippage
mutation is modelled by `adjust`, see the header comment). -/
def stepOrderAdj (adjust : FillEvent → FillEvent) (symbol : String)
    (time : Int) (price high low commission : ℚ) (cap : Option Int)
    (o : Order) : Order × Option FillEvent :=
  if ¬ o.is_open then (o, none)
  else
    let o1 := o.maybe_timeout time
    if ¬ o1.is_open then (o1, none)
    else
      match fillPriceFor o1 price high low with
      | none => (o1, none)
      | some fill_price =>
        let qty :=
          match cap with
          | none => o1.remaining
          | some c => if 0 < o1.filled_qty then o1.remaining else min o1.remaining c
        let fill := adjust
          { symbol := symbol, time := time, fill_type := o1.side,
            quantity := qty, price := fill_price, commission := commission }
        (o1.record_fill fill, some fill)

/-- The `for order in list(self._orders[symbol])` loop of
`OrderBook.process_bar`: orders of other symbols are untouched. -/
def processOrdersAdj (adjust : FillEvent → FillEvent) (symbol : String)
    (time : Int) (price high low commission : ℚ) (cap : Option Int) :
    List Order → List Order × List FillEvent
  | [] => ([], [])
  | o :: rest =>
    let hd :=
      if o.symbol = symbol then
        stepOrderAdj adjust symbol time price high low commission cap o
      else (o, none)
    let tl := processOrdersAdj adjust symbol time price high low commission cap rest
    (hd.1 :: tl.1, hd.2.toList ++ tl.2)

/-- Attempt to execute open orders for `symbol` against one OHLC bar
(src/orders/order_book.py `OrderBook.process_bar`), with the caller's
fill adjustment threaded through (see `stepOrderAdj`). The effective
cap is the `max_qty_per_fill` argument when supplied, else the book's
configured default. -/
def OrderBook.process_bar_adj (b : OrderBook) (adjust : FillEvent → FillEvent)
    (symbol : String) (time : Int) (price high low commission : ℚ)
    (max_qty_per_fill : Option Int) : OrderBook × List FillEvent :=
  let effective_cap :=
    match max_qty_per_fill with
    | some c => some c
    | none => b.max_qty_per_fill
  let r := processOrdersAdj adjust symbol time price high low commission
    effective_cap b.orders
  ({ b with orders := r.1 }, r.2)

/-- `OrderBook.process_bar` as written in the source: no fill
adjustment. -/
def OrderBook.process_bar (b : OrderBook) (symbol : String) (time : Int)
    (price high low commission : ℚ) (max_qty_per_fill : Option Int) :
    OrderBook × List FillEvent :=
  b.process_bar_adj id symbol time price high low commission max_qty_per_fill

/-- Single-order matching step without adjustment (used to state the
per-order claims). -/
def stepOrder (symbol : String) (time : Int)
    (price high low commission : ℚ) (cap : Option Int) (o : Order) :
    Order × Option FillEvent :=
  stepOrderAdj id symbol time price high low commission cap o

/-- Open position in a single symbol (src/portfolio/manager.py `Position`). -/
structure Position where
  quantity : Int
  avg_price : ℚ
deriving DecidableEq, Repr

/-- Fresh position, the `Position()` dataclass defaults. -/
def Position.empty : Position :=
  { quantity := 0, avg_price := 0 }

/-- Portfolio ledger state (src/portfolio/manager.py
`PortfolioManager`); `positions` is the insertion-ordered dict. -/
structure PortfolioManager where
  cash : ℚ
  max_leverage : ℚ
  positions : List (String × Position)
  trade_history : List FillEvent
deriving DecidableEq, Repr

/-- Fresh ledger (src/portfolio/manager.py `PortfolioManager.__init__`
with the default `max_leverage=2.0`). -/
def PortfolioManager.init (starting_cash : ℚ) : PortfolioManager :=
  { cash := starting_cash, max_leverage := 2, positions := [], trade_history := [] }

/-- Dict read half of `self._positions.setdefault(sym, Position())`. -/
def lookupPos : List (String × Position) → String → Position
  | [], _ => Position.empty
  | p :: rest, sym => if p.1 = sym then p.2 else lookupPos rest sym

/-- Store the updated position back: replace the first binding for the
key, or append a new binding (dict insertion order). -/
def setPos (sym : String) (v : Position) : List (String × Position) →
    List (String × Position)
  | [] => [(sym, v)]
  | p :: rest =>
    if p.1 = sym then (sym, v) :: rest else p :: setPos sym v rest

/-- The trade direction used by the ledger: `1 if fill_type == BUY else -1`
(src/portfolio/manager.py `PortfolioManager.apply_fill`). -/
def direction (s : SignalType) : Int :=
  if s = SignalType.BUY then 1 else -1

/-- Update portfolio state with an executed trade
(src/portfolio/manager.py `PortfolioManager.apply_fill`). -/
def PortfolioManager.apply_fill (pm : PortfolioManager) (fill : FillEvent) :
    PortfolioManager :=
  let pos := lookupPos pm.positions fill.symbol
  let dir : Int := direction fill.fill_type
  let new_qty := pos.quantity + dir * fill.quantity
  let new_avg : ℚ :=
    if new_qty = 0 then 0
    else (pos.avg_price * |(pos.quantity : ℚ)| + fill.price * (fill.quantity : ℚ))
      / |(new_qty : ℚ)|
  let trade_cost := fill.price * (fill.quantity : ℚ) + fill.commission
  { pm with
    positions := setPos fill.symbol { quantity := new_qty, avg_price := new_avg } pm.positions,
    cash := pm.cash - (dir : ℚ) * trade_cost,
    trade_history := pm.trade_history ++ [fill] }

/-- Backward-compat alias (src/portfolio/manager.py `update_with_fill`). -/
def PortfolioManager.update_with_fill (pm : PortfolioManager) (fill : FillEvent) :
    PortfolioManager :=
  pm.apply_fill fill

/-- Current margin loan (src/portfolio/manager.py `margin_used`). -/
def PortfolioManager.margin_used (pm : PortfolioManager) : ℚ :=
  max (-pm.cash) 0

/-- The `prices.get(sym, 0.0)` read on the price dict. -/
def lookupPrice : List (String × ℚ) → String → ℚ
  | [], _ => 0
  | p :: rest, sym => if p.1 = sym then p.2 else lookupPrice rest sym

/-- Mark-to-market value of all positions
(src/portfolio/manager.py `market_value`). -/
def PortfolioManager.market_value (pm : PortfolioManager)
    (prices : List (String × ℚ)) : ℚ :=
  (pm.positions.map (fun sp => (sp.2.quantity : ℚ) * lookupPrice prices sp.1)).sum

/-- Cash plus mark-to-market (src/portfolio/manager.py `total_equity`). -/
def PortfolioManager.total_equity (pm : PortfolioManager)
    (prices : List (String × ℚ)) : ℚ :=
  pm.cash + pm.market_value prices

/-- Paper broker state (src/broker/paper.py `PaperBroker`). -/
structure PaperBroker where
  latency : Int
  slippage_pct : ℚ
  delay_queue : List (Int × Order)
  order_book : OrderBook
  portfolio : PortfolioManager
  fills : List FillEvent
  equity_curve : List (Int × ℚ)
  last_prices : List (String × ℚ)
deriving DecidableEq, Repr

/-- Fresh broker (src/broker/paper.py `PaperBroker.__init__`). -/
def PaperBroker.init (starting_cash : ℚ) (latency : Int) (slippage_pct : ℚ)
    (max_qty_per_fill : Option Int) : PaperBroker :=
  { latency := latency, slippage_pct := slippage_pct, delay_queue := [],
    order_book := OrderBook.empty max_qty_per_fill,
    portfolio := PortfolioManager.init starting_cash,
    fills := [], equity_curve := [], last_prices := [] }

/-- Queue an order for execution after the latency window
(src/broker/paper.py `PaperBroker.submit_order`; `now` is the
caller-supplied timestamp). -/
def PaperBroker.submit_order (b : PaperBroker) (o : Order) (now : Int) :
    PaperBroker :=
  { b with delay_queue := b.delay_queue ++ [(now + b.latency, o)] }

/-- Delete the first delay-queue entry whose order has the given id
(the queue scan of src/broker/paper.py `PaperBroker.cancel_order`). -/
def queueCancel (oid : String) : List (Int × Order) →
    Option (List (Int × Order))
  | [] => none
  | e :: rest =>
    if e.2.id = oid then some rest
    else (queueCancel oid rest).map (fun q => e :: q)

/-- Cancel: try the pending queue first, else delegate to the book
(src/broker/paper.py `PaperBroker.cancel_order`). -/
def PaperBroker.cancel_order (b : PaperBroker) (oid : String) :
    PaperBroker × Bool :=
  match queueCancel oid b.delay_queue with
  | some q => ({ b with delay_queue := q }, true)
  | none =>
    let r := b.order_book.cancel_order oid
    ({ b with order_book := r.1 }, r.2)

/-- The `while self._delay_queue and self._delay_queue[0][0] <= time`
flush loop of src/broker/paper.py `PaperBroker.on_price_tick`. -/
def flushQueue (time : Int) : List (Int × Order) → OrderBook →
    List (Int × Order) × OrderBook
  | [], bk => ([], bk)
  | e :: rest, bk =>
    if e.1 ≤ time then flushQueue time rest (bk.add_order e.2)
    else (e :: rest, bk)

/-- Dict write `self._last_prices[symbol] = price`: replace the first
binding for the key, or append a new binding. -/
def setAssocPrice (ps : List (String × ℚ)) (sym : String) (v : ℚ) :
    List (String × ℚ) :=
  match ps with
  | [] => [(sym, v)]
  | p :: rest =>
    if p.1 = sym then (sym, v) :: rest else p :: setAssocPrice rest sym v

/-- The slippage price adjustment of `PaperBroker.on_price_tick`
(`f.price *= 1 + s` for BUY, `f.price *= 1 - s` otherwise). -/
def slipFill (s : ℚ) (f : FillEvent) : FillEvent :=
  if f.fill_type = SignalType.BUY then { f with price := f.price * (1 + s) }
  else { f with price := f.price * (1 - s) }

/-- Process one OHLC price tick (src/broker/paper.py
`PaperBroker.on_price_tick`). The source mutates each returned
`FillEvent` in place (`f.price *= ...`) after `process_bar` returns;
since the same object is aliased by the originating order's `fills`
list and nothing reads the price in between, this is modelled by
threading the adjustment into the fill's construction
(`process_bar_adj`). The `if self.slippage_pct:` truthiness test is
the `≠ 0` branch. -/
def PaperBroker.on_price_tick (b : PaperBroker) (symbol : String)
    (time : Int) (price high low commission : ℚ) :
    PaperBroker × List FillEvent :=
  let last_prices := setAssocPrice b.last_prices symbol price
  let fq := flushQueue time b.delay_queue b.order_book
  let adjust := if b.slippage_pct ≠ 0 then slipFill b.slippage_pct else id
  let pb := (fq.2).process_bar_adj adjust symbol time price high low commission none
  let portfolio := pb.2.foldl PortfolioManager.apply_fill b.portfolio
  let equity := portfolio.total_equity last_prices
  ({ b with
      delay_queue := fq.1,
      order_book := pb.1,
      portfolio := portfolio,
      fills := b.fills ++ pb.2,
      equity_curve := b.equity_curve ++ [(time, equity)],
      last_prices := last_prices },
   pb.2)

/-- Reset internal state (src/broker/paper.py `PaperBroker.reset`):
fresh book with the same cap, fresh ledger with
`cash + margin_used`, cleared queue and fills. The equity curve and
last prices are not cleared by the source. -/
def PaperBroker.reset (b : PaperBroker) : PaperBroker :=
  { b with
    delay_queue := [],
    order_book := OrderBook.empty b.order_book.max_qty_per_fill,
    portfolio := PortfolioManager.init (b.portfolio.cash + b.portfolio.margin_used),
    fills := [] }

/-- One OHLC bar of a symbol's series; High/Low may be absent
(src/backtesting/engine.py handles Close-only datasets with
`row.get("High", close)` / `row.get("Low", close)`). -/
structure Bar where
  close : ℚ
  high : Option ℚ
  low : Option ℚ
deriving DecidableEq, Repr

/-- The engine's `data` mapping: symbol → time-indexed series, in dict
insertion order. -/
abbrev SeriesData := List (String × List (Int × Bar))

/-- The series stored for a symbol (`self.data[symbol]`). -/
def seriesFor : SeriesData → String → List (Int × Bar)
  | [], _ => []
  | p :: rest, sym => if p.1 = sym then p.2 else seriesFor rest sym

/-- Time-indexed read on one series (`df.loc[time]` guarded by
`time in df.index`). -/
def lookupBar : List (Int × Bar) → Int → Option Bar
  | [], _ => none
  | p :: rest, time => if p.1 = time then some p.2 else lookupBar rest time

/-- The row of a symbol's series at a timestamp. -/
def barAt (data : SeriesData) (sym : String) (time : Int) : Option Bar :=
  lookupBar (seriesFor data sym) time

/-- The close of a symbol at a timestamp, `none` when the symbol has no
bar there (src/backtesting/engine.py `BacktestEngine._price_at`). -/
def price_at (data : SeriesData) (sym : String) (time : Int) : Option ℚ :=
  (barAt data sym time).map Bar.close

/-- Mutable engine state threaded through the replay loop: the book,
the ledger, and the accumulated equity curve. -/
structure EngineState where
  order_book : OrderBook
  portfolio : PortfolioManager
  equity_curve : List (Int × ℚ)
deriving DecidableEq, Repr

/-- One symbol of step 3 of the replay loop (loop body of
src/backtesting/engine.py `BacktestEngine._execute_orders`): if the
symbol has a bar at this timestamp, run `process_bar` with that
bar's close/high/low (High/Low defaulting to Close) and feed the
fills to the ledger. -/
def execOrdersStep (data : SeriesData) (commission : ℚ) (time : Int)
    (s : EngineState) (sym : String) : EngineState :=
  match barAt data sym time with
  | none => s
  | some bar =>
    let close := bar.close
    let high := bar.high.getD close
    let low := bar.low.getD close
    let r := s.order_book.process_bar sym time close high low commission none
    { s with
      order_book := r.1,
      portfolio := r.2.foldl PortfolioManager.update_with_fill s.portfolio }

/-- Step 3 of the replay loop (src/backtesting/engine.py
`BacktestEngine._execute_orders`): iterate the symbols in dict
order. -/
def execute_orders (data : SeriesData) (commission : ℚ) (time : Int)
    (st : EngineState) : EngineState :=
  (data.map Prod.fst).foldl (execOrdersStep data commission time) st

/-- One iteration of the replay loop (src/backtesting/engine.py
`BacktestEngine.run`, loop body). The strategy stage (step 2) is
abstracted by `orderFlow`, the orders the strategies cause to be
submitted at each timestamp — the equity-sampling claim holds for
every order flow. A timestamp with no market events is skipped
(`continue`); otherwise the bar is executed and one equity sample is
appended with `prices_now = {sym: _price_at(sym, dt) or 0.0}`. -/
def stepEngine (data : SeriesData) (commission : ℚ)
    (orderFlow : Int → List Order) (st : EngineState) (time : Int) :
    EngineState :=
  if (data.map Prod.fst).all (fun sym => (price_at data sym time).isNone) then st
  else
    let st1 := { st with
      order_book := (orderFlow time).foldl OrderBook.add_order st.order_book }
    let st2 := execute_orders data commission time st1
    let prices_now := (data.map Prod.fst).map
      (fun sym => (sym, (price_at data sym time).getD 0))
    { st2 with
      equity_curve := st2.equity_curve ++
        [(time, st2.portfolio.total_equity prices_now)] }

/-- The replay loop over the sorted union of timestamps
(src/backtesting/engine.py `BacktestEngine.run`). -/
def runEngine (data : SeriesData) (commission : ℚ)
    (orderFlow : Int → List Order) (dates : List Int) (st : EngineState) :
    EngineState :=
  dates.foldl (stepEngine data commission orderFlow) st

/-- The matching-engine operations a caller can perform, used to state
the all-reachable-states invariant of the book. `add` carries the
construction parameters: an order enters the book through the
validating constructor. -/
inductive BookOp where
  | add (symbol : String) (side : SignalType) (order_type : OrderType)
      (quantity : Int) (limit_price stop_price : Option ℚ)
      (created_at : Int) (timeout : Option Int) (id : String)
  | processBar (symbol : String) (time : Int)
      (price high low commission : ℚ) (cap : Option Int)
  | cancel (id : String)
  | timeoutAll (now : Int)
deriving Repr

/-- Apply one operation to the book. `add` submits the constructed
order when construction succeeds and does nothing on a construction
error (the exception propagates to the caller before `add_order`);
`timeoutAll` is the lazy `maybe_timeout` evaluation applied to the
tracked orders. -/
def applyOp (b : OrderBook) : BookOp → OrderBook
  | BookOp.add symbol side ot q lp sp ca tmo oid =>
    match mkOrder symbol side ot q lp sp ca tmo oid with
    | Except.ok o => b.add_order o
    | Except.error _ => b
  | BookOp.processBar symbol time price high low commission cap =>
    (b.process_bar symbol time price high low commission cap).1
  | BookOp.cancel oid => (b.cancel_order oid).1
  | BookOp.timeoutAll now =>
    { b with orders := b.orders.map (fun o => o.maybe_timeout now) }

/-- Run a sequence of matching-engine operations from a state. -/
def runOps (b : OrderBook) (ops : List BookOp) : OrderBook :=
  ops.foldl applyOp b

/-- Sum of the quantities of a list of fills. -/
def sumFills (fs : List FillEvent) : Int :=
  (fs.map FillEvent.quantity).sum

/-- The order bookkeeping invariant of the spec: the recorded fills
account exactly for `filled_qty`, which never exceeds the requested
quantity, and the status is FILLED exactly when the order is fully
filled. -/
def OrderInv (o : Order) : Prop :=
  sumFills o.fills = o.filled_qty ∧ o.filled_qty ≤ o.quantity ∧
    (o.status = OrderStatus.FILLED ↔ o.filled_qty = o.quantity)

instance (o : Order) : Decidable (OrderInv o) := by
  unfold OrderInv; infer_instance

/-- The quantity of the position held in a symbol (0 when the ledger
has no entry for it). -/
def PortfolioManager.posQty (pm : PortfolioManager) (sym : String) : Int :=
  (lookupPos pm.positions sym).quantity

/-- The signed sum of the quantities of the fills on one symbol, the
reference value of the spec's position-conservation property. -/
def signedSum (sym : String) (fills : List FillEvent) : Int :=
  ((fills.filter (fun f => decide (f.symbol = sym))).map
    (fun f => direction f.fill_type * f.quantity)).sum

/-- A freshly constructed MARKET order, equal to the output of
`mkOrder` on the same parameters (used in concrete scenarios). -/
def sampleMarketOrder (symbol : String) (side : SignalType) (quantity : Int)
    (created_at : Int) (id : String) : Order :=
  { symbol := symbol, side := side, order_type := OrderType.MARKET,
    quantity := quantity, limit_price := none, stop_price := none,
    created_at := created_at, timeout := none, id := id,
    filled_qty := 0, status := OrderStatus.PENDING, fills := [] }

/-- A freshly constructed LIMIT order, equal to the output of `mkOrder`
on the same parameters. -/
def sampleLimitOrder (symbol : String) (side : SignalType) (quantity : Int)
    (lp : ℚ) (created_at : Int) (id : String) : Order :=
  { symbol := symbol, side := side, order_type := OrderType.LIMIT,
    quantity := quantity, limit_price := some lp, stop_price := none,
    created_at := created_at, timeout := none, id := id,
    filled_qty := 0, status := OrderStatus.PENDING, fills := [] }

/-- Cap scenario: book capped at 50, one MARKET SELL for 120. -/
def exBookC3 : OrderBook :=
  (OrderBook.empty (some 50)).add_order (sampleMarketOrder "X" SignalType.SELL 120 0 "id1")

/-- First bar of the cap scenario. -/
def exBarC3a : OrderBook × List FillEvent :=
  exBookC3.process_bar "X" 1 100 100 100 0 none

/-- Second bar of the cap scenario. -/
def exBarC3b : OrderBook × List FillEvent :=
  exBarC3a.1.process_bar "X" 2 100 100 100 0 none

/-- Slippage scenario: broker with slippage 1/1000, one MARKET BUY. -/
def exBrokerC4 : PaperBroker :=
  (PaperBroker.init 100000 0 (1/1000) none).submit_order
    (sampleMarketOrder "AAPL" SignalType.BUY 1 0 "id4") 0

/-- The tick executing the slippage scenario at close 100. -/
def exTickC4 : PaperBroker × List FillEvent :=
  exBrokerC4.on_price_tick "AAPL" 0 100 100 100 0

/-- The fill the slippage scenario produces: price 100·(1+1/1000). -/
def exFillC4 : FillEvent :=
  { symbol := "AAPL", time := 0, fill_type := SignalType.BUY,
    quantity := 1, price := 1001/10, commission := 0 }

/-- Equity-sampling scenario: symbol A has bars at times 1 and 2,
symbol B only at time 1 (close 50). -/
def exDataC5 : SeriesData :=
  [("A", [(1, { close := 10, high := none, low := none }),
          (2, { close := 10, high := none, low := none })]),
   ("B", [(1, { close := 50, high := none, low := none })])]

/-- Order flow of the equity-sampling scenario: buy one share of B at
time 1. -/
def exFlowC5 : Int → List Order :=
  fun t => if t = 1 then [sampleMarketOrder "B" SignalType.BUY 1 1 "idB"] else []

/-- Engine state after the time-1 step of the equity-sampling scenario. -/
def exStateC5a : EngineState :=
  stepEngine exDataC5 0 exFlowC5
    { order_book := OrderBook.empty none,
      portfolio := PortfolioManager.init 1000, equity_curve := [] } 1

/-- Engine state after the time-2 step of the equity-sampling scenario. -/
def exStateC5b : EngineState :=
  stepEngine exDataC5 0 exFlowC5 exStateC5a 2

/-- The marking rule asserted by the equity-sampling claim, stated from
the claim's words to exhibit the divergence: a symbol with no bar at
this timestamp is marked at its most recent earlier close, and
contributes 0 only if it never had a bar up to this timestamp
(series are time-sorted, so the last entry at or before `time` is
the most recent). -/
def specMarkC5 (data : SeriesData) (sym : String) (time : Int) : ℚ :=
  match ((seriesFor data sym).filter (fun p => decide (p.1 ≤ time))).getLast? with
  | some p => p.2.close
  | none => 0

/-- Latency scenario: latency 10, one order submitted at time 100 and a
second at time 0, so the delay queue is not sorted by ready time. -/
def exBrokerC7 : PaperBroker :=
  ((PaperBroker.init 1000 10 0 none).submit_order
      (sampleMarketOrder "S" SignalType.BUY 1 100 "o1") 100).submit_order
    (sampleMarketOrder "S" SignalType.BUY 1 0 "o2") 0

/-- The tick at time 10 of the latency scenario: the entry ready at 10
sits behind the entry ready at 110. -/
def exTickC7 : PaperBroker × List FillEvent :=
  exBrokerC7.on_price_tick "S" 10 5 5 5 0

/-- Reset scenario: 100 cash, a BUY of 10 shares at 100 drives cash to
-900 (the ledger never raises on negative cash). -/
def exBrokerC9 : PaperBroker :=
  (PaperBroker.init 100 0 0 none).submit_order
    (sampleMarketOrder "S" SignalType.BUY 10 0 "o9") 0

/-- The tick executing the reset scenario's order. -/
def exTickC9 : PaperBroker × List FillEvent :=
  exBrokerC9.on_price_tick "S" 0 100 100 100 0

/-- Operation sequence for the invariant witness: add a capped MARKET
SELL for 120 and process one bar. -/
def exOpsC1 : List BookOp :=
  [BookOp.add "X" SignalType.SELL OrderType.MARKET 120 none none 0 none "id1",
   BookOp.processBar "X" 1 100 100 100 0 none]

/-- The order reached by the invariant-witness operation sequence. -/
def exOrderC1 : Order :=
  ((runOps (OrderBook.empty (some 50)) exOpsC1).orders).getD 0
    (sampleMarketOrder "Z" SignalType.BUY 1 0 "z")

/-! ### Supporting lemmas: ledger position bookkeeping -/

theorem lookupPos_setPos_self (sym : String) (v : Position) :
    ∀ ps : List (String × Position), lookupPos (setPos sym v ps) sym = v := by
  intro ps
  induction ps with
  | nil => simp [setPos, lookupPos]
  | cons p rest ih =>
    by_cases h : p.1 = sym
    · simp [setPos, h, lookupPos]
    · simp [setPos, h, lookupPos, ih]

theorem lookupPos_setPos_other (sym sym' : String) (v : Position)
    (h : sym' ≠ sym) :
    ∀ ps : List (String × Position),
      lookupPos (setPos sym v ps) sym' = lookupPos ps sym' := by
  have hns : ¬ sym = sym' := fun hh => h hh.symm
  intro ps
  induction ps with
  | nil => simp [setPos, lookupPos, hns]
  | cons p rest ih =>
    by_cases hp : p.1 = sym
    · simp [setPos, hp, lookupPos, hns]
    · simp [setPos, hp, lookupPos, ih]

theorem posQty_apply_fill_self (pm : PortfolioManager) (f : FillEvent) :
    (pm.apply_fill f).posQty f.symbol
      = pm.posQty f.symbol + direction f.fill_type * f.quantity := by
  unfold PortfolioManager.apply_fill PortfolioManager.posQty
  simp [lookupPos_setPos_self]

theorem posQty_apply_fill_other (pm : PortfolioManager) (f : FillEvent)
    (sym : String) (h : sym ≠ f.symbol) :
    (pm.apply_fill f).posQty sym = pm.posQty sym := by
  unfold PortfolioManager.apply_fill PortfolioManager.posQty
  simp [lookupPos_setPos_other _ _ _ h]

theorem posQty_foldl (sym : String) :
    ∀ (fills : List FillEvent) (pm : PortfolioManager),
      (fills.foldl PortfolioManager.apply_fill pm).posQty sym
        = pm.posQty sym + signedSum sym fills := by
  intro fills
  induction fills with
  | nil => intro pm; simp [signedSum]
  | cons f rest ih =>
    intro pm
    by_cases h : f.symbol = sym
    · have hq := posQty_apply_fill_self pm f
      rw [h] at hq
      simp only [List.foldl_cons, ih, hq, signedSum, List.filter_cons, h]
      simp [signedSum]
      omega
    · have hq := posQty_apply_fill_other pm f sym (fun hh => h hh.symm)
      simp only [List.foldl_cons, ih, hq, signedSum, List.filter_cons, h]
      simp [signedSum, h]

/-- C2: applying a fill moves the position for the fill's symbol by
`direction * quantity` (+1 for BUY, -1 for SELL), so after any fill
sequence the position equals the signed sum of the fills on that
symbol, and cash moves by `-direction * (price*qty + commission)`. -/
theorem C2_ledger_cash_and_position (pm : PortfolioManager) (f : FillEvent) :
    ((pm.apply_fill f).cash
        = pm.cash - (direction f.fill_type : ℚ) * (f.price * (f.quantity : ℚ) + f.commission))
    ∧ direction SignalType.BUY = 1
    ∧ direction SignalType.SELL = -1
    ∧ ((pm.apply_fill f).posQty f.symbol
        = pm.posQty f.symbol + direction f.fill_type * f.quantity)
    ∧ ∀ (fills : List FillEvent) (pm₀ : PortfolioManager) (sym : String),
        (fills.foldl PortfolioManager.apply_fill pm₀).posQty sym
          = pm₀.posQty sym + signedSum sym fills := by
  refine ⟨?_, rfl, rfl, posQty_apply_fill_self pm f, ?_⟩
  · simp [PortfolioManager.apply_fill]
  · intro fills pm₀ sym
    exact posQty_foldl sym fills pm₀

/-! ### Supporting lemmas: the order bookkeeping invariant -/

theorem status_ne_FILLED_of_is_open (o : Order) (h : o.is_open = true) :
    o.status ≠ OrderStatus.FILLED := by
  intro hf
  unfold Order.is_open at h
  rw [hf] at h
  simp at h

theorem OrderInv_mkOrder (symbol : String) (side : SignalType)
    (ot : OrderType) (q : Int) (lp sp : Option ℚ) (ca : Int)
    (tmo : Option Int) (oid : String) (o : Order)
    (h : mkOrder symbol side ot q lp sp ca tmo oid = Except.ok o) :
    OrderInv o := by
  unfold mkOrder at h
  split_ifs at h with h1 h2 h3 h4
  injection h with h
  subst h
  refine ⟨by simp [sumFills], by simp; omega, ?_⟩
  simp
  omega

theorem OrderInv_record_fill (o : Order) (f : FillEvent) (h : OrderInv o)
    (hq : f.quantity ≤ o.remaining) : OrderInv (o.record_fill f) := by
  obtain ⟨h1, h2, h3⟩ := h
  unfold Order.remaining at hq
  unfold Order.record_fill
  refine ⟨?_, by simp; omega, ?_⟩
  · simp [sumFills] at h1 ⊢
    omega
  · by_cases hge : o.quantity ≤ o.filled_qty + f.quantity
    · simp [hge]
      omega
    · simp [hge]
      omega

theorem OrderInv_maybe_timeout (o : Order) (now : Int) (h : OrderInv o) :
    OrderInv (o.maybe_timeout now) := by
  obtain ⟨h1, h2, h3⟩ := h
  cases hto : o.timeout with
  | none =>
    simp only [Order.maybe_timeout, hto]
    exact ⟨h1, h2, h3⟩
  | some t =>
    by_cases hcond : o.is_open = true ∧ t < now - o.created_at
    · simp only [Order.maybe_timeout, hto, if_pos hcond]
      refine ⟨h1, h2, ?_⟩
      constructor
      · intro hs; simp at hs
      · intro hqe
        exact absurd (h3.mpr hqe) (status_ne_FILLED_of_is_open o hcond.1)
    · simp only [Order.maybe_timeout, hto, if_neg hcond]
      exact ⟨h1, h2, h3⟩

theorem OrderInv_cancel (o : Order) (h : OrderInv o) : OrderInv o.cancel := by
  obtain ⟨h1, h2, h3⟩ := h
  unfold Order.cancel
  by_cases hopen : o.is_open = true
  · rw [if_pos hopen]
    refine ⟨h1, h2, ?_⟩
    constructor
    · intro hs; simp at hs
    · intro hqe
      exact absurd (h3.mpr hqe) (status_ne_FILLED_of_is_open o hopen)
  · rw [if_neg hopen]
    exact ⟨h1, h2, h3⟩

theorem OrderInv_stepOrderAdj (adjust : FillEvent → FillEvent)
    (hadj : ∀ f, (adjust f).quantity = f.quantity)
    (symbol : String) (time : Int) (price high low commission : ℚ)
    (cap : Option Int) (o : Order) (h : OrderInv o) :
    OrderInv (stepOrderAdj adjust symbol time price high low commission cap o).1 := by
  unfold stepOrderAdj
  by_cases hopen : o.is_open
  case neg => simp [hopen]; exact h
  case pos =>
    have h1 : OrderInv (o.maybe_timeout time) := OrderInv_maybe_timeout o time h
    by_cases hopen1 : (o.maybe_timeout time).is_open
    case neg => simp [hopen, hopen1]; exact h1
    case pos =>
      cases hfp : fillPriceFor (o.maybe_timeout time) price high low with
      | none => simp [hopen, hopen1, hfp]; exact h1
      | some fp =>
        simp only [hopen, hopen1, hfp, not_true_eq_false, if_false,
          Bool.true_eq_false, not_false_eq_true, if_true]
        apply OrderInv_record_fill _ _ h1
        rw [hadj]
        cases cap with
        | none => simp
        | some c =>
          by_cases hfq : 0 < (o.maybe_timeout time).filled_qty
          · simp [hfq]
          · simp [hfq, min_le_left]

theorem OrderInv_processOrdersAdj (adjust : FillEvent → FillEvent)
    (hadj : ∀ f, (adjust f).quantity = f.quantity)
    (symbol : String) (time : Int) (price high low commission : ℚ)
    (cap : Option Int) :
    ∀ os : List Order, (∀ o ∈ os, OrderInv o) →
      ∀ o' ∈ (processOrdersAdj adjust symbol time price high low commission cap os).1,
        OrderInv o' := by
  intro os
  induction os with
  | nil => simp [processOrdersAdj]
  | cons o rest ih =>
    intro hall o' ho'
    simp only [processOrdersAdj, List.mem_cons] at ho'
    rcases ho' with ho' | ho'
    · subst ho'
      by_cases hsym : o.symbol = symbol
      · simp only [hsym, if_true]
        exact OrderInv_stepOrderAdj adjust hadj symbol time price high low
          commission cap o (hall o (List.mem_cons_self o rest))
      · simp only [hsym, if_false]
        exact hall o (List.mem_cons_self o rest)
    · exact ih (fun x hx => hall x (List.mem_cons_of_mem o hx)) o' ho'

theorem OrderInv_cancelList (oid : String) :
    ∀ os : List Order, (∀ o ∈ os, OrderInv o) →
      ∀ o' ∈ (cancelList oid os).1, OrderInv o' := by
  intro os
  induction os with
  | nil => simp [cancelList]
  | cons o rest ih =>
    intro hall o' ho'
    simp only [cancelList] at ho'
    by_cases hc : o.id = oid ∧ o.is_open
    · rw [if_pos hc] at ho'
      simp only [List.mem_cons] at ho'
      rcases ho' with rfl | ho'
      · exact OrderInv_cancel o (hall o (List.mem_cons_self o rest))
      · exact hall o' (List.mem_cons_of_mem o ho')
    · rw [if_neg hc] at ho'
      simp only [List.mem_cons] at ho'
      rcases ho' with rfl | ho'
      · exact hall _ (List.mem_cons_self _ rest)
      · exact ih (fun x hx => hall x (List.mem_cons_of_mem o hx)) o' ho'

theorem OrderInv_applyOp (b : OrderBook) (op : BookOp)
    (hb : ∀ o ∈ b.orders, OrderInv o) :
    ∀ o ∈ (applyOp b op).orders, OrderInv o := by
  cases op with
  | add symbol side ot q lp sp ca tmo oid =>
    intro o ho
    simp only [applyOp] at ho
    cases hmk : mkOrder symbol side ot q lp sp ca tmo oid with
    | ok o' =>
      rw [hmk] at ho
      simp only [OrderBook.add_order, List.mem_append, List.mem_singleton] at ho
      rcases ho with ho | ho
      · exact hb o ho
      · subst ho
        exact OrderInv_mkOrder symbol side ot q lp sp ca tmo oid o hmk
    | error e =>
      rw [hmk] at ho
      exact hb o ho
  | processBar symbol time price high low commission cap =>
    intro o ho
    simp only [applyOp, OrderBook.process_bar, OrderBook.process_bar_adj] at ho
    exact OrderInv_processOrdersAdj id (fun _ => rfl) symbol time price high low
      commission _ b.orders hb o ho
  | cancel oid =>
    intro o ho
    simp only [applyOp, OrderBook.cancel_order] at ho
    exact OrderInv_cancelList oid b.orders hb o ho
  | timeoutAll now =>
    intro o ho
    simp only [applyOp, List.mem_map] at ho
    obtain ⟨o', ho', rfl⟩ := ho
    exact OrderInv_maybe_timeout o' now (hb o' ho')

theorem OrderInv_runOps :
    ∀ (ops : List BookOp) (b : OrderBook), (∀ o ∈ b.orders, OrderInv o) →
      ∀ o ∈ (runOps b ops).orders, OrderInv o := by
  intro ops
  induction ops with
  | nil => intro b hb; simpa [runOps] using hb
  | cons op rest ih =>
    intro b hb
    have hstep := OrderInv_applyOp b op hb
    simpa [runOps, List.foldl_cons] using ih (applyOp b op) hstep

/-- C1: after any sequence of matching-engine operations starting from
an empty book, every tracked order's recorded fills sum exactly to
its `filled_qty`, which never exceeds the requested quantity, and
the status is FILLED exactly when `filled_qty = quantity`. -/
theorem C1_order_fill_invariant (cap : Option Int) (ops : List BookOp)
    (o : Order) (ho : o ∈ (runOps (OrderBook.empty cap) ops).orders) :
    OrderInv o := by
  refine OrderInv_runOps ops (OrderBook.empty cap) ?_ o ho
  intro o' ho'
  simp [OrderBook.empty] at ho'

/-- Witness: the invariant holds for the concrete partially filled
order produced by adding a capped MARKET SELL and processing a bar. -/
theorem C1_order_fill_invariant_witness :
    exOrderC1 ∈ (runOps (OrderBook.empty (some 50)) exOpsC1).orders
      ∧ OrderInv exOrderC1 :=
  ⟨by decide, C1_order_fill_invariant (some 50) exOpsC1 exOrderC1 (by decide)⟩

/-! ### Supporting lemmas: single-order matching step -/

theorem maybe_timeout_fields (o : Order) (now : Int) :
    (o.maybe_timeout now).filled_qty = o.filled_qty
    ∧ (o.maybe_timeout now).remaining = o.remaining
    ∧ (o.maybe_timeout now).symbol = o.symbol
    ∧ (o.maybe_timeout now).side = o.side
    ∧ (o.maybe_timeout now).order_type = o.order_type
    ∧ (o.maybe_timeout now).limit_price = o.limit_price
    ∧ (o.maybe_timeout now).quantity = o.quantity := by
  cases hto : o.timeout with
  | none => simp [Order.maybe_timeout, hto]
  | some t =>
    by_cases hcond : o.is_open = true ∧ t < now - o.created_at
    · simp [Order.maybe_timeout, hto, if_pos hcond, Order.remaining]
    · simp [Order.maybe_timeout, hto, if_neg hcond]

/-- C3: the liquidity cap applies only to an order's first fill: an
eligible order with `filled_qty = 0` fills `min(remaining, cap)`
when a cap is configured, while any order that already has a fill
fills its full remainder; concretely, with cap 50 a MARKET SELL for
120 fills 50 on the first bar (PARTIALLY_FILLED, remaining 70) and
70 on the next bar (FILLED). -/
theorem C3_first_fill_cap (symbol : String) (time : Int)
    (price high low commission : ℚ) :
    (∀ (c : Int) (o : Order) (f : FillEvent),
        o.filled_qty = 0 →
        (stepOrder symbol time price high low commission (some c) o).2 = some f →
        f.quantity = min o.remaining c)
    ∧ (∀ (cap : Option Int) (o : Order) (f : FillEvent),
        0 < o.filled_qty →
        (stepOrder symbol time price high low commission cap o).2 = some f →
        f.quantity = o.remaining)
    ∧ (exBarC3a.2.map FillEvent.quantity = [50]
        ∧ exBarC3a.1.orders.map Order.status = [OrderStatus.PARTIALLY_FILLED]
        ∧ exBarC3a.1.orders.map Order.remaining = [70]
        ∧ exBarC3b.2.map FillEvent.quantity = [70]
        ∧ exBarC3b.1.orders.map Order.status = [OrderStatus.FILLED]) := by
  refine ⟨?_, ?_, by decide⟩
  · intro c o f h0 hf
    unfold stepOrder stepOrderAdj at hf
    by_cases hopen : o.is_open = true
    · by_cases hopen1 : (o.maybe_timeout time).is_open = true
      · cases hfp : fillPriceFor (o.maybe_timeout time) price high low with
        | none => simp [hopen, hopen1, hfp] at hf
        | some fp =>
          have hfq : (o.maybe_timeout time).filled_qty = 0 :=
            (maybe_timeout_fields o time).1.trans h0
          have hrem : (o.maybe_timeout time).remaining = o.remaining :=
            (maybe_timeout_fields o time).2.1
          simp only [hopen, hopen1, hfp, not_true_eq_false, if_false, hfq,
            lt_irrefl, if_neg, id_eq, Option.some.injEq] at hf
          rw [← hf]
          simp [hfq, hrem]
      · simp [hopen, hopen1] at hf
    · simp [hopen] at hf
  · intro cap o f h0 hf
    unfold stepOrder stepOrderAdj at hf
    by_cases hopen : o.is_open = true
    · by_cases hopen1 : (o.maybe_timeout time).is_open = true
      · cases hfp : fillPriceFor (o.maybe_timeout time) price high low with
        | none => simp [hopen, hopen1, hfp] at hf
        | some fp =>
          have hfq : (o.maybe_timeout time).filled_qty = o.filled_qty :=
            (maybe_timeout_fields o time).1
          have hrem : (o.maybe_timeout time).remaining = o.remaining :=
            (maybe_timeout_fields o time).2.1
          simp only [hopen, hopen1, hfp, not_true_eq_false, if_false,
            id_eq, Option.some.injEq] at hf
          rw [← hf]
          cases cap with
          | none => simp [hrem]
          | some c =>
            simp [hfq, h0, hrem]
      · simp [hopen, hopen1] at hf
    · simp [hopen] at hf

/-- Witness: the first-fill cap formula at a concrete capped MARKET
SELL with no prior fill. -/
theorem C3_first_fill_cap_witness :
    (sampleMarketOrder "X" SignalType.SELL 120 0 "id1").filled_qty = 0
    ∧ ((stepOrder "X" 1 100 100 100 0 (some 50)
          (sampleMarketOrder "X" SignalType.SELL 120 0 "id1")).2.map
            FillEvent.quantity = some 50) := by
  constructor
  · decide
  · rcases hsf : (stepOrder "X" 1 100 100 100 0 (some 50)
      (sampleMarketOrder "X" SignalType.SELL 120 0 "id1")).2 with _ | f
    · exact absurd hsf (by decide)
    · have := (C3_first_fill_cap "X" 1 100 100 100 0).1 50
        (sampleMarketOrder "X" SignalType.SELL 120 0 "id1") f (by decide) hsf
      simp [this]
      decide

theorem is_open_of_maybe_timeout (o : Order) (now : Int)
    (h : (o.maybe_timeout now).is_open = true) : o.is_open = true := by
  cases hto : o.timeout with
  | none => simpa [Order.maybe_timeout, hto] using h
  | some t =>
    by_cases hcond : o.is_open = true ∧ t < now - o.created_at
    · exact hcond.1
    · simpa [Order.maybe_timeout, hto, if_neg hcond] using h

theorem fillPriceFor_LIMIT (o : Order) (price high low : ℚ) (lp : ℚ)
    (hot : o.order_type = OrderType.LIMIT) (hlp : o.limit_price = some lp) :
    fillPriceFor o price high low =
      (if o.side = SignalType.BUY ∧ low ≤ lp then some (min lp price)
       else if o.side = SignalType.SELL ∧ lp ≤ high then some (max lp price)
       else none) := by
  have hlpP : o.limitP = lp := by simp [Order.limitP, hlp]
  simp [fillPriceFor, hot, hlpP]

theorem stepOrder_open_eq (symbol : String) (time : Int)
    (price high low commission : ℚ) (cap : Option Int) (o : Order)
    (hopen : o.is_open = true) (hopen1 : (o.maybe_timeout time).is_open = true) :
    stepOrder symbol time price high low commission cap o =
      (match fillPriceFor (o.maybe_timeout time) price high low with
       | none => (o.maybe_timeout time, none)
       | some fp =>
         let o1 := o.maybe_timeout time
         let qty :=
           match cap with
           | none => o1.remaining
           | some c => if 0 < o1.filled_qty then o1.remaining else min o1.remaining c
         let fill : FillEvent :=
           { symbol := symbol, time := time, fill_type := o1.side,
             quantity := qty, price := fp, commission := commission }
         (o1.record_fill fill, some fill)) := by
  unfold stepOrder stepOrderAdj
  simp [hopen, hopen1]

/-- C6: an open, non-expiring LIMIT BUY order fills on a bar exactly
when the bar's low is at or below the limit, at price
min(limit, close); a LIMIT SELL fills exactly when the bar's high
is at or above the limit, at price max(limit, close); otherwise the
order is returned (still open) with no fill for this bar. -/
theorem C6_limit_eligibility (symbol : String) (time : Int)
    (price high low commission : ℚ) (cap : Option Int) (o : Order) (lp : ℚ)
    (hot : o.order_type = OrderType.LIMIT) (hlp : o.limit_price = some lp)
    (hopen1 : (o.maybe_timeout time).is_open = true) :
    (o.side = SignalType.BUY →
      ((low ≤ lp →
          ∃ f, (stepOrder symbol time price high low commission cap o).2 = some f
            ∧ f.price = min lp price)
        ∧ (¬ low ≤ lp →
            stepOrder symbol time price high low commission cap o
              = (o.maybe_timeout time, none)
            ∧ ((stepOrder symbol time price high low commission cap o).1).is_open = true)))
    ∧ (o.side = SignalType.SELL →
      ((lp ≤ high →
          ∃ f, (stepOrder symbol time price high low commission cap o).2 = some f
            ∧ f.price = max lp price)
        ∧ (¬ lp ≤ high →
            stepOrder symbol time price high low commission cap o
              = (o.maybe_timeout time, none)
            ∧ ((stepOrder symbol time price high low commission cap o).1).is_open = true))) := by
  have hopen : o.is_open = true := is_open_of_maybe_timeout o time hopen1
  have hstep := stepOrder_open_eq symbol time price high low commission cap o hopen hopen1
  have hot1 : (o.maybe_timeout time).order_type = OrderType.LIMIT :=
    (maybe_timeout_fields o time).2.2.2.2.1.trans hot
  have hlp1 : (o.maybe_timeout time).limit_price = some lp :=
    (maybe_timeout_fields o time).2.2.2.2.2.1.trans hlp
  have hside : (o.maybe_timeout time).side = o.side :=
    (maybe_timeout_fields o time).2.2.2.1
  have hfp := fillPriceFor_LIMIT (o.maybe_timeout time) price high low lp hot1 hlp1
  constructor
  · intro hbuy
    rw [hside, hbuy] at hfp
    constructor
    · intro hle
      rw [if_pos ⟨rfl, hle⟩] at hfp
      rw [hstep, hfp]
      exact ⟨_, rfl, rfl⟩
    · intro hnle
      have hcond1 : ¬ (SignalType.BUY = SignalType.BUY ∧ low ≤ lp) :=
        fun hc => hnle hc.2
      have hcond2 : ¬ (SignalType.BUY = SignalType.SELL ∧ lp ≤ high) :=
        fun hc => by cases hc.1
      rw [if_neg hcond1, if_neg hcond2] at hfp
      rw [hstep, hfp]
      exact ⟨rfl, hopen1⟩
  · intro hsell
    rw [hside, hsell] at hfp
    constructor
    · intro hle
      have hcond1 : ¬ (SignalType.SELL = SignalType.BUY ∧ low ≤ lp) :=
        fun hc => by cases hc.1
      rw [if_neg hcond1, if_pos ⟨rfl, hle⟩] at hfp
      rw [hstep, hfp]
      exact ⟨_, rfl, rfl⟩
    · intro hnle
      have hcond1 : ¬ (SignalType.SELL = SignalType.BUY ∧ low ≤ lp) :=
        fun hc => by cases hc.1
      have hcond2 : ¬ (SignalType.SELL = SignalType.SELL ∧ lp ≤ high) :=
        fun hc => hnle hc.2
      rw [if_neg hcond1, if_neg hcond2] at hfp
      rw [hstep, hfp]
      exact ⟨rfl, hopen1⟩

/-- Witness: a LIMIT BUY at limit 95 on a bar with low 96 produces no
fill and stays open, while on a bar with low 90 and close 100 it
fills at min(95, 100) = 95. -/
theorem C6_limit_eligibility_witness :
    ((sampleLimitOrder "X" SignalType.BUY 10 95 0 "lb").order_type = OrderType.LIMIT)
    ∧ ((sampleLimitOrder "X" SignalType.BUY 10 95 0 "lb").maybe_timeout 1).is_open = true
    ∧ stepOrder "X" 1 100 101 96 0 none (sampleLimitOrder "X" SignalType.BUY 10 95 0 "lb")
        = ((sampleLimitOrder "X" SignalType.BUY 10 95 0 "lb").maybe_timeout 1, none)
    ∧ (∃ f, (stepOrder "X" 1 100 101 90 0 none
          (sampleLimitOrder "X" SignalType.BUY 10 95 0 "lb")).2 = some f
        ∧ f.price = min 95 100) := by
  refine ⟨by decide, by decide, ?_, ?_⟩
  · exact (((C6_limit_eligibility "X" 1 100 101 96 0 none
      (sampleLimitOrder "X" SignalType.BUY 10 95 0 "lb") 95 rfl rfl (by decide)).1
        rfl).2 (by norm_num)).1
  · exact ((C6_limit_eligibility "X" 1 100 101 90 0 none
      (sampleLimitOrder "X" SignalType.BUY 10 95 0 "lb") 95 rfl rfl (by decide)).1
        rfl).1 (by norm_num)

/-- C8: Order construction succeeds exactly when the parameters are
valid — it fails iff quantity ≤ 0, or side is HOLD, or LIMIT without
a limit price, or STOP without a stop price — while submission
(`add_order`) performs no validation: it unconditionally appends the
order to the active list and the audit trail, so rejection can only
happen at construction time. -/
theorem C8_construction_validation (symbol : String) (side : SignalType)
    (ot : OrderType) (q : Int) (lp sp : Option ℚ) (ca : Int)
    (tmo : Option Int) (oid : String) :
    ((∃ o, mkOrder symbol side ot q lp sp ca tmo oid = Except.ok o) ↔
      ¬ (q ≤ 0 ∨ side = SignalType.HOLD
          ∨ (ot = OrderType.LIMIT ∧ lp = none)
          ∨ (ot = OrderType.STOP ∧ sp = none)))
    ∧ (∀ (b : OrderBook) (o : Order),
        (b.add_order o).orders = b.orders ++ [o]
        ∧ (b.add_order o).history = b.history ++ [o.id]) := by
  refine ⟨?_, fun b o => ⟨rfl, rfl⟩⟩
  unfold mkOrder
  split_ifs with h1 h2 h3 h4
  · simp [h1]
  · simp [h2.1, h2.2]
  · simp [h3.1, h3.2]
  · simp [h4]
  · simp only [Except.ok.injEq, exists_eq']
    constructor
    · intro _
      push_neg
      refine ⟨by omega, h4, ?_, ?_⟩
      · intro hl hln; exact h2 ⟨hl, hln⟩
      · intro hs hsn; exact h3 ⟨hs, hsn⟩
    · intro _; trivial

/-! ### Supporting lemmas: latency-queue cancellation -/

theorem queueCancel_eq_none (oid : String) :
    ∀ q : List (Int × Order), queueCancel oid q = none ↔ ∀ e ∈ q, e.2.id ≠ oid := by
  intro q
  induction q with
  | nil => simp [queueCancel]
  | cons e rest ih =>
    by_cases he : e.2.id = oid
    · simp [queueCancel, he]
    · simp [queueCancel, he, ih]

theorem queueCancel_eq_some (oid : String) :
    ∀ q : List (Int × Order), (∃ e ∈ q, e.2.id = oid) →
      ∃ pre e post, q = pre ++ e :: post ∧ e.2.id = oid
        ∧ (∀ e' ∈ pre, e'.2.id ≠ oid)
        ∧ queueCancel oid q = some (pre ++ post) := by
  intro q
  induction q with
  | nil => simp
  | cons e rest ih =>
    intro hex
    by_cases he : e.2.id = oid
    · exact ⟨[], e, rest, by simp, he, by simp, by simp [queueCancel, he]⟩
    · have hex' : ∃ e' ∈ rest, e'.2.id = oid := by
        rcases hex with ⟨x, hx, hid⟩
        rcases List.mem_cons.mp hx with rfl | hx'
        · exact absurd hid he
        · exact ⟨x, hx', hid⟩
      obtain ⟨pre, x, post, heq, hid, hpre, hqc⟩ := ih hex'
      refine ⟨e :: pre, x, post, by simp [heq], hid, ?_, ?_⟩
      · intro e' he'
        rcases List.mem_cons.mp he' with rfl | he''
        · exact he
        · exact hpre e' he''
      · simp [queueCancel, he, hqc]

/-- C10: cancelling an id that is still waiting in the latency queue
removes the first matching entry and returns true without touching
the book, the ledger, or any Order value — so the queued order is
never marked CANCELLED; delegation to the book's cancel, which does
set status CANCELLED on an open match, happens only when no queue
entry matches. -/
theorem C10_queue_cancel_frame (b : PaperBroker) (oid : String) :
    ((∃ e ∈ b.delay_queue, e.2.id = oid) →
      ∃ pre e post,
        b.delay_queue = pre ++ e :: post ∧ e.2.id = oid
        ∧ (∀ e' ∈ pre, e'.2.id ≠ oid)
        ∧ b.cancel_order oid = ({ b with delay_queue := pre ++ post }, true))
    ∧ ((∀ e ∈ b.delay_queue, e.2.id ≠ oid) →
      b.cancel_order oid
        = ({ b with order_book := (b.order_book.cancel_order oid).1 },
           (b.order_book.cancel_order oid).2))
    ∧ (∀ o : Order, o.is_open = true → o.cancel.status = OrderStatus.CANCELLED) := by
  refine ⟨?_, ?_, ?_⟩
  · intro hex
    obtain ⟨pre, e, post, heq, hid, hpre, hqc⟩ :=
      queueCancel_eq_some oid b.delay_queue hex
    refine ⟨pre, e, post, heq, hid, hpre, ?_⟩
    unfold PaperBroker.cancel_order
    rw [hqc]
  · intro hall
    unfold PaperBroker.cancel_order
    rw [(queueCancel_eq_none oid b.delay_queue).mpr hall]
  · intro o ho
    unfold Order.cancel
    rw [if_pos ho]

/-- Witness: cancelling the still-queued order "o2" of the latency
scenario removes exactly its entry, returns true and leaves the rest
of the broker untouched. -/
theorem C10_queue_cancel_frame_witness :
    (∃ e ∈ exBrokerC7.delay_queue, e.2.id = "o2")
    ∧ ∃ pre e post,
        exBrokerC7.delay_queue = pre ++ e :: post ∧ e.2.id = "o2"
        ∧ (∀ e' ∈ pre, e'.2.id ≠ "o2")
        ∧ exBrokerC7.cancel_order "o2"
            = ({ exBrokerC7 with delay_queue := pre ++ post }, true) :=
  ⟨by decide, (C10_queue_cancel_frame exBrokerC7 "o2").1 (by decide)⟩

/-- C9 counterexample: in the reset scenario an executed BUY drives the
ledger's cash to -900; reset then produces a fresh ledger with cash
0, not the prior -900, so reset does not preserve a negative cash
balance. -/
theorem C9_reset_negative_cash_cex :
    exTickC9.1.portfolio.cash = -900
    ∧ exTickC9.1.reset.portfolio.cash = 0
    ∧ ((0 : ℚ) ≠ -900) := by
  have h1 : exTickC9.1.portfolio.cash = -900 := by
    norm_num [exTickC9, exBrokerC9, PaperBroker.on_price_tick, setAssocPrice, flushQueue,
      PaperBroker.submit_order, PaperBroker.init, OrderBook.empty, OrderBook.add_order,
      OrderBook.process_bar_adj, processOrdersAdj, stepOrderAdj, Order.is_open,
      Order.maybe_timeout, fillPriceFor, Order.limitP, Order.stopP, Order.remaining,
      Order.record_fill, slipFill, PortfolioManager.init, PortfolioManager.apply_fill,
      lookupPos, setPos, direction, Position.empty, PortfolioManager.total_equity,
      PortfolioManager.market_value, lookupPrice, sampleMarketOrder]
  refine ⟨h1, ?_, by norm_num⟩
  show exTickC9.1.portfolio.cash + exTickC9.1.portfolio.margin_used = 0
  unfold PortfolioManager.margin_used
  rw [h1]
  rw [max_eq_left (by norm_num : (0 : ℚ) ≤ - -900)]
  norm_num

/-- C9 amended: reset clears the latency queue and the fills, installs
a fresh empty book with the same `max_qty_per_fill` cap and a fresh
ledger whose starting cash is `cash + margin_used = max(cash, 0)` —
the prior cash balance when it was non-negative, and 0 when the
prior cash was negative. -/
theorem C9_reset_state (b : PaperBroker) :
    b.reset.delay_queue = []
    ∧ b.reset.fills = []
    ∧ b.reset.order_book = OrderBook.empty b.order_book.max_qty_per_fill
    ∧ b.reset.portfolio
        = PortfolioManager.init (b.portfolio.cash + b.portfolio.margin_used)
    ∧ b.reset.portfolio.cash = max b.portfolio.cash 0 := by
  refine ⟨rfl, rfl, rfl, rfl, ?_⟩
  show b.portfolio.cash + b.portfolio.margin_used = max b.portfolio.cash 0
  unfold PortfolioManager.margin_used
  rcases le_total b.portfolio.cash 0 with h | h
  · rw [max_eq_left (neg_nonneg.mpr h), max_eq_right h]; ring
  · rw [max_eq_right (neg_nonpos.mpr h), max_eq_left h]; ring

/-! ### Supporting lemmas: latency-queue flush -/

theorem flushQueue_eq (t : Int) :
    ∀ (q : List (Int × Order)) (bk : OrderBook),
      flushQueue t q bk
        = (q.dropWhile (fun e => decide (e.1 ≤ t)),
           ((q.takeWhile (fun e => decide (e.1 ≤ t))).map Prod.snd).foldl
             OrderBook.add_order bk) := by
  intro q
  induction q with
  | nil => intro bk; simp [flushQueue]
  | cons e rest ih =>
    intro bk
    by_cases he : e.1 ≤ t
    · simp [flushQueue, he, ih]
    · simp [flushQueue, he]

theorem dropWhile_sorted_ready_gt (t : Int) :
    ∀ q : List (Int × Order), List.Pairwise (fun a c => a.1 ≤ c.1) q →
      ∀ e ∈ q.dropWhile (fun e => decide (e.1 ≤ t)), t < e.1 := by
  intro q
  induction q with
  | nil => simp
  | cons a rest ih =>
    intro hp e he
    by_cases ha : a.1 ≤ t
    · rw [List.dropWhile_cons_of_pos (by simpa using ha)] at he
      exact ih (List.pairwise_cons.mp hp).2 e he
    · rw [List.dropWhile_cons_of_neg (by simpa using ha)] at he
      rcases List.mem_cons.mp he with rfl | he'
      · exact lt_of_not_le ha
      · have hle : a.1 ≤ e.1 := (List.pairwise_cons.mp hp).1 e he'
        exact lt_of_lt_of_le (lt_of_not_le ha) hle

/-- C7 corrected behaviour: submission enqueues `(now + latency, order)`
at the back of the latency queue, and a tick at time `t` flushes the
maximal prefix of the queue whose ready-timestamps are ≤ `t` — not
every such entry. Every flushed entry does satisfy ready ≤ `t`, so
an order submitted at `T` is never matchable before `T + latency`;
and when the queue's ready-timestamps are nondecreasing (monotone
submission times with the fixed latency), the prefix is exactly the
set of entries with ready ≤ `t`, every entry left behind being
strictly later than `t`. -/
theorem C7_latency_prefix_flush (b : PaperBroker) (o : Order) (now : Int)
    (sym : String) (t : Int) (price high low commission : ℚ) :
    ((b.submit_order o now).delay_queue
        = b.delay_queue ++ [(now + b.latency, o)])
    ∧ (∀ (q : List (Int × Order)) (bk : OrderBook),
        flushQueue t q bk
          = (q.dropWhile (fun e => decide (e.1 ≤ t)),
             ((q.takeWhile (fun e => decide (e.1 ≤ t))).map Prod.snd).foldl
               OrderBook.add_order bk))
    ∧ (∀ q : List (Int × Order),
        ∀ e ∈ q.takeWhile (fun e => decide (e.1 ≤ t)), e.1 ≤ t)
    ∧ (∀ q : List (Int × Order), List.Pairwise (fun a c => a.1 ≤ c.1) q →
        ∀ e ∈ q.dropWhile (fun e => decide (e.1 ≤ t)), t < e.1)
    ∧ ((b.on_price_tick sym t price high low commission).1.delay_queue
        = b.delay_queue.dropWhile (fun e => decide (e.1 ≤ t))) := by
  refine ⟨rfl, flushQueue_eq t, ?_, dropWhile_sorted_ready_gt t, ?_⟩
  · intro q e he
    simpa using List.mem_takeWhile_imp he
  · show (flushQueue t b.delay_queue b.order_book).1 = _
    rw [flushQueue_eq t]

/-- C7 counterexample: in the latency scenario (latency 10, submissions
at times 100 then 0) the queue holds ready-timestamps [110, 10]; the
tick at time 10 flushes nothing — the entry with ready 10 ≤ 10 stays
queued behind the not-yet-ready head and the book receives no order,
contradicting "exactly those entries whose ready-timestamp is ≤ time
are moved". -/
theorem C7_flush_not_exact_cex :
    exTickC7.1.delay_queue.map Prod.fst = [110, 10]
    ∧ ((10 : Int) ≤ 10)
    ∧ exTickC7.1.order_book.orders = [] := by
  exact ⟨by decide, by decide, by decide⟩

/-- Witness: the prefix-flush characterisation at a concrete sorted
queue with ready-timestamps [5, 20] and a tick at time 10. -/
theorem C7_latency_prefix_flush_witness :
    List.Pairwise (fun a c => a.1 ≤ c.1)
      [((5 : Int), sampleMarketOrder "S" SignalType.BUY 1 0 "w1"),
       ((20 : Int), sampleMarketOrder "S" SignalType.BUY 1 0 "w2")]
    ∧ ∀ e ∈ ([((5 : Int), sampleMarketOrder "S" SignalType.BUY 1 0 "w1"),
              ((20 : Int), sampleMarketOrder "S" SignalType.BUY 1 0 "w2")].dropWhile
                (fun e => decide (e.1 ≤ (10 : Int)))), (10 : Int) < e.1 :=
  ⟨by decide,
   (C7_latency_prefix_flush (PaperBroker.init 0 0 0 none)
      (sampleMarketOrder "S" SignalType.BUY 1 0 "w1") 0 "S" 10 0 0 0 0).2.2.2.1
     _ (by decide)⟩

/-! ### Supporting lemmas: slippage adjustment and fill aliasing -/

theorem stepOrderAdj_snd_map (adjust : FillEvent → FillEvent)
    (symbol : String) (time : Int) (price high low commission : ℚ)
    (cap : Option Int) (o : Order) :
    (stepOrderAdj adjust symbol time price high low commission cap o).2
      = ((stepOrderAdj id symbol time price high low commission cap o).2).map adjust := by
  unfold stepOrderAdj
  by_cases hopen : o.is_open = true
  · by_cases hopen1 : (o.maybe_timeout time).is_open = true
    · cases hfp : fillPriceFor (o.maybe_timeout time) price high low with
      | none => simp [hopen, hopen1, hfp]
      | some fp => simp [hopen, hopen1, hfp]
    · simp [hopen, hopen1]
  · simp [hopen]

theorem processOrdersAdj_snd_map (adjust : FillEvent → FillEvent)
    (symbol : String) (time : Int) (price high low commission : ℚ)
    (cap : Option Int) :
    ∀ os : List Order,
      (processOrdersAdj adjust symbol time price high low commission cap os).2
        = ((processOrdersAdj id symbol time price high low commission cap os).2).map
            adjust := by
  intro os
  induction os with
  | nil => simp [processOrdersAdj]
  | cons o rest ih =>
    by_cases hsym : o.symbol = symbol
    · simp only [processOrdersAdj, hsym, if_true]
      rw [stepOrderAdj_snd_map adjust symbol time price high low commission cap o, ih]
      cases (stepOrderAdj id symbol time price high low commission cap o).2 <;> simp
    · simp only [processOrdersAdj, hsym, if_false, List.map_append, ih]
      simp

theorem stepOrderAdj_recorded (adjust : FillEvent → FillEvent)
    (symbol : String) (time : Int) (price high low commission : ℚ)
    (cap : Option Int) (o : Order) (f : FillEvent)
    (h : (stepOrderAdj adjust symbol time price high low commission cap o).2 = some f) :
    ((stepOrderAdj adjust symbol time price high low commission cap o).1).fills.getLast?
      = some f := by
  unfold stepOrderAdj at h ⊢
  by_cases hopen : o.is_open = true
  · by_cases hopen1 : (o.maybe_timeout time).is_open = true
    · cases hfp : fillPriceFor (o.maybe_timeout time) price high low with
      | none => simp [hopen, hopen1, hfp] at h
      | some fp =>
        simp only [hopen, hopen1, hfp, not_true_eq_false, if_false,
          Option.some.injEq] at h ⊢
        rw [← h]
        simp [Order.record_fill]
    · simp [hopen, hopen1] at h
  · simp [hopen] at h

theorem processOrdersAdj_fill_recorded (adjust : FillEvent → FillEvent)
    (symbol : String) (time : Int) (price high low commission : ℚ)
    (cap : Option Int) :
    ∀ os : List Order,
      ∀ f ∈ (processOrdersAdj adjust symbol time price high low commission cap os).2,
        ∃ o ∈ (processOrdersAdj adjust symbol time price high low commission cap os).1,
          o.fills.getLast? = some f := by
  intro os
  induction os with
  | nil => simp [processOrdersAdj]
  | cons o rest ih =>
    intro f hf
    simp only [processOrdersAdj, List.mem_append] at hf
    rcases hf with hf | hf
    · by_cases hsym : o.symbol = symbol
      · rw [if_pos hsym] at hf
        cases hsf : (stepOrderAdj adjust symbol time price high low commission cap o).2 with
        | none => rw [hsf] at hf; simp at hf
        | some f0 =>
          rw [hsf] at hf
          simp only [Option.toList_some, List.mem_singleton] at hf
          rcases hf with rfl
          refine ⟨(stepOrderAdj adjust symbol time price high low commission cap o).1,
            ?_, stepOrderAdj_recorded adjust symbol time price high low commission cap o _ hsf⟩
          simp [processOrdersAdj, hsym]
      · rw [if_neg hsym] at hf
        simp at hf
    · obtain ⟨o', ho', hrec⟩ := ih f hf
      refine ⟨o', ?_, hrec⟩
      simp only [processOrdersAdj, List.mem_cons]
      exact Or.inr ho'

/-- C4 amended: the slippage adjustment in `on_price_tick` mutates the
fill in place, so the very fills returned to the caller are the ones
recorded on their originating orders (each is the last recorded fill
of an order in the resulting book) and the ones applied to the
ledger, and with nonzero slippage they are exactly the matching
pass's fills with prices scaled by 1+slippage (BUY) or 1−slippage
(SELL) — the order's recorded fill does not keep the un-slipped
price. -/
theorem C4_slippage_shared_fill_amended (b : PaperBroker) (symbol : String)
    (time : Int) (price high low commission : ℚ) :
    ((b.on_price_tick symbol time price high low commission).1.portfolio
        = ((b.on_price_tick symbol time price high low commission).2).foldl
            PortfolioManager.apply_fill b.portfolio)
    ∧ ((b.on_price_tick symbol time price high low commission).1.fills
        = b.fills ++ (b.on_price_tick symbol time price high low commission).2)
    ∧ (∀ f ∈ (b.on_price_tick symbol time price high low commission).2,
        ∃ o ∈ (b.on_price_tick symbol time price high low commission).1.order_book.orders,
          o.fills.getLast? = some f)
    ∧ (b.slippage_pct ≠ 0 →
        (b.on_price_tick symbol time price high low commission).2
          = (((flushQueue time b.delay_queue b.order_book).2).process_bar
              symbol time price high low commission none).2.map
                (slipFill b.slippage_pct)) := by
  refine ⟨rfl, rfl, ?_, ?_⟩
  · intro f hf
    exact processOrdersAdj_fill_recorded _ symbol time price high low commission _
      (flushQueue time b.delay_queue b.order_book).2.orders f hf
  · intro hs
    show (((flushQueue time b.delay_queue b.order_book).2).process_bar_adj
        (if b.slippage_pct ≠ 0 then slipFill b.slippage_pct else id)
        symbol time price high low commission none).2 = _
    rw [if_pos hs]
    unfold OrderBook.process_bar OrderBook.process_bar_adj
    exact processOrdersAdj_snd_map (slipFill b.slippage_pct) symbol time price high
      low commission _ _

/-- C4 counterexample: in the slippage scenario (slippage 1/1000,
MARKET BUY executed at close 100) the fill recorded on the
originating order in the book carries the slipped price 1001/10,
not the original execution price 100 — the Fill is mutated, not
copied, before reaching the Ledger. -/
theorem C4_slipped_fill_on_order_cex :
    exTickC4.1.order_book.orders.map (fun o => o.fills.map FillEvent.price)
        = [[1001/10]]
    ∧ exTickC4.2.map FillEvent.price = [1001/10]
    ∧ ((1001/10 : ℚ) ≠ 100) := by
  refine ⟨?_, ?_, by norm_num⟩ <;>
    norm_num [exTickC4, exBrokerC4, PaperBroker.on_price_tick, setAssocPrice, flushQueue,
      PaperBroker.submit_order, PaperBroker.init, OrderBook.empty, OrderBook.add_order,
      OrderBook.process_bar_adj, processOrdersAdj, stepOrderAdj, Order.is_open,
      Order.maybe_timeout, fillPriceFor, Order.limitP, Order.stopP, Order.remaining,
      Order.record_fill, slipFill, PortfolioManager.init, PortfolioManager.apply_fill,
      lookupPos, setPos, direction, Position.empty, PortfolioManager.total_equity,
      PortfolioManager.market_value, lookupPrice, sampleMarketOrder]

/-- Witness: in the slippage scenario the returned fill (price 1001/10)
is itself the last fill recorded on an order of the resulting book. -/
theorem C4_slippage_shared_fill_amended_witness :
    exBrokerC4.slippage_pct ≠ 0
    ∧ exFillC4 ∈ exTickC4.2
    ∧ ∃ o ∈ exTickC4.1.order_book.orders, o.fills.getLast? = some exFillC4 := by
  have hmem : exFillC4 ∈ exTickC4.2 := by
    have : exTickC4.2.map FillEvent.price = [1001/10] ∧ exTickC4.2 = [exFillC4] := by
      constructor <;>
        norm_num [exTickC4, exBrokerC4, exFillC4, PaperBroker.on_price_tick, setAssocPrice,
          flushQueue, PaperBroker.submit_order, PaperBroker.init, OrderBook.empty,
          OrderBook.add_order, OrderBook.process_bar_adj, processOrdersAdj, stepOrderAdj,
          Order.is_open, Order.maybe_timeout, fillPriceFor, Order.limitP, Order.stopP,
          Order.remaining, Order.record_fill, slipFill, PortfolioManager.init,
          PortfolioManager.apply_fill, lookupPos, setPos, direction, Position.empty,
          PortfolioManager.total_equity, PortfolioManager.market_value, lookupPrice,
          sampleMarketOrder]
    rw [this.2]
    exact List.mem_singleton_self exFillC4
  exact ⟨by norm_num [exBrokerC4, PaperBroker.init, PaperBroker.submit_order], hmem,
    (C4_slippage_shared_fill_amended exBrokerC4 "AAPL" 0 100 100 100 0).2.2.1
      exFillC4 hmem⟩

/-! ### Supporting lemmas: equity sampling -/

theorem execOrdersStep_equity_curve (data : SeriesData) (c : ℚ) (t : Int)
    (s : EngineState) (sym : String) :
    (execOrdersStep data c t s sym).equity_curve = s.equity_curve := by
  unfold execOrdersStep
  cases barAt data sym t <;> simp

theorem foldl_execOrdersStep_equity_curve (data : SeriesData) (c : ℚ) (t : Int) :
    ∀ (syms : List String) (s : EngineState),
      (syms.foldl (execOrdersStep data c t) s).equity_curve = s.equity_curve := by
  intro syms
  induction syms with
  | nil => intro s; rfl
  | cons sym rest ih =>
    intro s
    simp only [List.foldl_cons, ih, execOrdersStep_equity_curve]

theorem lookupPrice_map_keys (f : String → ℚ) (sym : String) :
    ∀ syms : List String,
      lookupPrice (syms.map (fun s => (s, f s))) sym
        = if sym ∈ syms then f sym else 0 := by
  intro syms
  induction syms with
  | nil => simp [lookupPrice]
  | cons a rest ih =>
    by_cases ha : a = sym
    · simp [lookupPrice, ha]
    · have ha' : ¬ sym = a := fun hh => ha hh.symm
      simp [lookupPrice, ha, ha', ih, List.mem_cons]

theorem seriesFor_nil_of_not_mem (sym : String) :
    ∀ data : SeriesData, sym ∉ data.map Prod.fst → seriesFor data sym = [] := by
  intro data
  induction data with
  | nil => intro _; rfl
  | cons p rest ih =>
    intro h
    simp only [List.map_cons, List.mem_cons] at h
    push_neg at h
    unfold seriesFor
    rw [if_neg (fun hh => h.1 hh.symm)]
    exact ih h.2

theorem lookupPrice_built_marks (data : SeriesData) (t : Int) (sym : String) :
    lookupPrice ((data.map Prod.fst).map (fun s => (s, (price_at data s t).getD 0))) sym
      = (price_at data sym t).getD 0 := by
  rw [lookupPrice_map_keys]
  by_cases h : sym ∈ data.map Prod.fst
  · rw [if_pos h]
  · rw [if_neg h]
    unfold price_at barAt
    rw [seriesFor_nil_of_not_mem sym data h]
    rfl

theorem total_equity_marks (pm : PortfolioManager) (data : SeriesData) (t : Int) :
    pm.total_equity ((data.map Prod.fst).map (fun s => (s, (price_at data s t).getD 0)))
      = pm.cash
        + (pm.positions.map
            (fun sp => (sp.2.quantity : ℚ) * (price_at data sp.1 t).getD 0)).sum := by
  unfold PortfolioManager.total_equity PortfolioManager.market_value
  simp only [lookupPrice_built_marks]

/-- C5 amended: a timestamp at which no symbol has a bar is skipped
entirely; a processed timestamp appends exactly one equity sample,
computed as cash plus the sum over positions of quantity times mark,
where a symbol's mark is its close at this very timestamp when it
has a bar now and 0 otherwise — a symbol with no bar at this
timestamp contributes 0 even if it had earlier bars. -/
theorem C5_equity_sample_marks_amended (data : SeriesData) (commission : ℚ)
    (orderFlow : Int → List Order) (st : EngineState) (t : Int) :
    ((data.map Prod.fst).all (fun sym => (price_at data sym t).isNone) = true →
      stepEngine data commission orderFlow st t = st)
    ∧ ((data.map Prod.fst).all (fun sym => (price_at data sym t).isNone) = false →
      (stepEngine data commission orderFlow st t).equity_curve
        = st.equity_curve
          ++ [(t,
            (execute_orders data commission t
                { st with order_book :=
                    (orderFlow t).foldl OrderBook.add_order st.order_book }).portfolio.cash
            + ((execute_orders data commission t
                  { st with order_book :=
                      (orderFlow t).foldl OrderBook.add_order st.order_book }).portfolio.positions.map
                (fun sp => (sp.2.quantity : ℚ) * (price_at data sp.1 t).getD 0)).sum)]) := by
  constructor
  · intro h
    unfold stepEngine
    rw [if_pos h]
  · intro h
    unfold stepEngine
    rw [if_neg (by simp [h])]
    show (execute_orders data commission t _).equity_curve ++ _ = _
    unfold execute_orders
    rw [foldl_execOrdersStep_equity_curve]
    rw [total_equity_marks]

/-- C5 counterexample: in the equity-sampling scenario the engine holds
one share of B (bought at 50 at time 1); at time 2 only A has a bar,
and the recorded equity sample is 950 — B is marked at 0 — whereas
marking B at its prior close 50, as the claim states, would give
1000. -/
theorem C5_missing_bar_marked_zero_cex :
    exStateC5b.equity_curve = [(1, 1000), (2, 950)]
    ∧ exStateC5b.portfolio.posQty "B" = 1
    ∧ specMarkC5 exDataC5 "B" 2 = 50
    ∧ exStateC5b.portfolio.cash
        + ((exStateC5b.portfolio.positions.map
            (fun sp => (sp.2.quantity : ℚ) * specMarkC5 exDataC5 sp.1 2)).sum) = 1000
    ∧ ((950 : ℚ) ≠ 1000) := by
  refine ⟨?_, ?_, ?_, ?_, by norm_num⟩
  all_goals
    simp [exStateC5b, exStateC5a, exDataC5, exFlowC5, stepEngine, execute_orders,
      execOrdersStep, price_at, barAt, lookupBar, seriesFor, specMarkC5,
      OrderBook.empty, OrderBook.add_order, OrderBook.process_bar,
      OrderBook.process_bar_adj, processOrdersAdj, stepOrderAdj, Order.is_open,
      Order.maybe_timeout, fillPriceFor, Order.limitP, Order.stopP, Order.remaining,
      Order.record_fill, PortfolioManager.init, PortfolioManager.update_with_fill,
      PortfolioManager.apply_fill, PortfolioManager.posQty, lookupPos, setPos,
      direction, Position.empty, PortfolioManager.total_equity,
      PortfolioManager.market_value, lookupPrice, sampleMarketOrder] <;>
      norm_num

/-- Witness: the amended sampling formula at the scenario's time-2
step, where only A has a bar. -/
theorem C5_equity_sample_marks_amended_witness :
    ((exDataC5.map Prod.fst).all (fun sym => (price_at exDataC5 sym 2).isNone) = false)
    ∧ (stepEngine exDataC5 0 exFlowC5 exStateC5a 2).equity_curve
        = exStateC5a.equity_curve
          ++ [(2,
            (execute_orders exDataC5 0 2
                { exStateC5a with order_book :=
                    (exFlowC5 2).foldl OrderBook.add_order exStateC5a.order_book }).portfolio.cash
            + ((execute_orders exDataC5 0 2
                  { exStateC5a with order_book :=
                      (exFlowC5 2).foldl OrderBook.add_order exStateC5a.order_book }).portfolio.positions.map
                (fun sp => (sp.2.quantity : ℚ) * (price_at exDataC5 sp.1 2).getD 0)).sum)] :=
  ⟨by decide, (C5_equity_sample_marks_amended exDataC5 0 exFlowC5 exStateC5a 2).2 (by decide)⟩

end MagicMissile
